import Mathlib

set_option maxRecDepth 100000

/-!
Verification of the P10 LED panel driver (`src/lib.rs` of `p10-led-panel`).

The development is a shallow embedding of the driver:

* bytes are `Nat` values below 256; the fixed `[u8; 256]` framebuffer and the
  fixed `[u8; 64]` scan cache are `List Nat` values of those lengths;
* machine arithmetic that can overflow is modelled with its checked (debug)
  semantics: the `u8` shift `1 << (8 - x % 8)` in `pixel_to_bitmask` and the
  array indexing in `draw_iter` return `Option`, `none` standing for a panic;
* the external collaborators (SPI bus, PWM brightness actuator, the latch and
  the two row-address digital lines) are modelled by an environment
  `env : Nat → Bool` telling whether the n-th collaborator call succeeds, and
  every attempted call is recorded in an event trace, so that ordering and
  error-propagation properties can be stated over the trace.
-/

namespace P10

/-- The driver's error type: `enum Error { Spi, Pwm, Digital }`. -/
inductive Error where
  | Spi
  | Pwm
  | Digital
deriving DecidableEq

/-- `P10Led::PANEL_WIDTH = 32`. -/
def PANEL_WIDTH : Nat := 32

/-- `P10Led::PANEL_HEIGHT = 16`. -/
def PANEL_HEIGHT : Nat := 16

/-- `P10Led::WIDTH = PX * PANEL_WIDTH`. -/
def WIDTH (PX : Nat) : Nat := PX * PANEL_WIDTH

/-- `P10Led::HEIGHT = PY * PANEL_HEIGHT`. -/
def HEIGHT (PY : Nat) : Nat := PY * PANEL_HEIGHT

/-- `P10Led::row_width_bytes`. -/
def row_width_bytes (PX : Nat) : Nat :=
  if WIDTH PX % 8 = 0 then WIDTH PX / 8 else WIDTH PX / 8 + 1

/-- `P10Led::unified_width_bytes` (`HEIGHT_IN_PANELS = PY`). -/
def unified_width_bytes (PX PY : Nat) : Nat :=
  row_width_bytes PX * PY

/-- `P10Led::pixel_to_bitmap_index`. -/
def pixel_to_bitmap_index (PX PY x y : Nat) : Nat :=
  let panel := x / PANEL_WIDTH + (WIDTH PX / PANEL_WIDTH) * (y / PANEL_HEIGHT)
  let x1 := x % PANEL_WIDTH + panel * PANEL_WIDTH
  let y1 := y % PANEL_HEIGHT
  x1 / 8 + y1 * unified_width_bytes PX PY

/-- `P10Led::pixel_to_bitmask`, i.e. the `u8` expression `1 << (8 - x % 8)`.
A `u8` shift by 8 or more is an arithmetic overflow (a panic under the
checked semantics), hence the `Option`: the result is `none` exactly when
`x % 8 = 0`, where the shift amount is 8. -/
def pixel_to_bitmask (x : Nat) : Option Nat :=
  if 8 - x % 8 < 8 then some (2 ^ (8 - x % 8)) else none

/-- One pixel update of `draw_iter`: the bounding-box clip
(`0 ≤ x < WIDTH`, `0 ≤ y < HEIGHT`, out-of-range pixels are dropped),
then `pixel_to_bitmap_index` / `pixel_to_bitmask`, then
`bitmap[idx] &= !bit` (color on) or `bitmap[idx] |= bit` (color off).
`none` models a panic: either the bitmask shift overflow or an
out-of-bounds index into the fixed 256-byte bitmap. -/
def setPixel (PX PY : Nat) (bm : List Nat) (x y : Int) (col : Bool) : Option (List Nat) :=
  if 0 ≤ x ∧ x < (WIDTH PX : Int) ∧ 0 ≤ y ∧ y < (HEIGHT PY : Int) then
    let idx := pixel_to_bitmap_index PX PY x.toNat y.toNat
    match pixel_to_bitmask x.toNat with
    | none => none
    | some bit =>
      if h : idx < bm.length then
        let b := bm.get ⟨idx, h⟩
        some (bm.set idx (if col then b &&& (255 ^^^ bit) else b ||| bit))
      else none
  else some bm

/-- `DrawTarget::draw_iter` over a finite pixel sequence. -/
def draw_iter (PX PY : Nat) (bm : List Nat) : List (Int × Int × Bool) → Option (List Nat)
  | [] => some bm
  | p :: ps =>
    match setPixel PX PY bm p.1 p.2.1 p.2.2 with
    | none => none
    | some bm1 => draw_iter PX PY bm1 ps

/-- The device-owned state of `P10Led`: the stored brightness, the packed
bitmap (`[u8; 256]`), the scan cache (`[u8; 64]`) and the scan-row phase. -/
structure Dev where
  brightness : Nat
  bitmap : List Nat
  cache : List Nat
  scanRow : Nat
deriving DecidableEq

/-- The state built by `P10Led::new` (arrays initialized to `0xff`,
`scan_row = 0`); the array sizes do not depend on the tile geometry,
mirroring the fixed-size fields of the source. -/
def new (brightness : Nat) : Dev :=
  { brightness := brightness
    bitmap := List.replicate 256 255
    cache := List.replicate 64 255
    scanRow := 0 }

/-- Events of the collaborator interface: an SPI transfer of a buffer, the
PWM blank (`set_duty_cycle_fully_off`), the latch edges, the row-address
lines A/B, and the PWM restore (`set_duty_cycle_fraction(brightness, 65535)`). -/
inductive Ev where
  | spiWrite (buf : List Nat)
  | pwmOff
  | latchHigh
  | latchLow
  | pinA (b : Bool)
  | pinB (b : Bool)
  | pwmSet (level : Nat)
deriving DecidableEq

/-- Device state plus instrumentation: a counter of collaborator calls made
so far (used to index the success environment) and the trace of attempted
calls. -/
structure St where
  dev : Dev
  calls : Nat
  trace : List Ev
deriving DecidableEq

/-- One collaborator call: the attempt is recorded in the trace, the call
counter advances, and the environment decides success (`none`) or the given
collaborator error. -/
def call (env : Nat → Bool) (e : Ev) (err : Error) (st : St) : St × Option Error :=
  ({ st with calls := st.calls + 1, trace := st.trace ++ [e] },
   if env st.calls then none else some err)

/-- Sequencing with the `?` operator of the source: an error short-circuits,
keeping the state mutations made so far (the Rust methods take `&mut self`). -/
def andThen (r : St × Option Error) (f : St → St × Option Error) : St × Option Error :=
  match r with
  | (st, none) => f st
  | (st, some e) => (st, some e)

/-- `P10Led::next_row`: blank the PWM output, pulse the latch high then low,
drive the two row-address lines from the bits of `scan_row`, advance
`scan_row = (scan_row + 1) % 4`, and restore the PWM output at the stored
brightness. -/
def next_row (env : Nat → Bool) (st : St) : St × Option Error :=
  andThen (call env Ev.pwmOff Error.Pwm st) fun st =>
  andThen (call env Ev.latchHigh Error.Digital st) fun st =>
  andThen (call env Ev.latchLow Error.Digital st) fun st =>
  andThen (call env (Ev.pinA (Nat.land st.dev.scanRow 1 != 0)) Error.Digital st) fun st =>
  andThen (call env (Ev.pinB (Nat.land st.dev.scanRow 2 != 0)) Error.Digital st) fun st =>
  let st := { st with dev := { st.dev with scanRow := (st.dev.scanRow + 1) % 4 } }
  call env (Ev.pwmSet st.dev.brightness) Error.Pwm st

/-- The interleaving loop of `fill_cache`: `n` is the number of 4-byte chunks
of the cache (`chunks_exact_mut(4)`); the zip of the four row iterators and
the chunk iterator stops at the shortest. -/
def interleave4 : Nat → List Nat → List Nat → List Nat → List Nat → List Nat
  | n + 1, a :: as, b :: bs, c :: cs, d :: ds =>
      a :: b :: c :: d :: interleave4 n as bs cs ds
  | _, _, _, _, _ => []

/-- `P10Led::fill_cache`: rebuild the written prefix of the cache from the
four interleaved framebuffer rows `scan_row + 0/4/8/12` (each a
`skip((scan_row + k) * rowsize).take(rowsize)` slice); cache bytes beyond
the zipped prefix keep their previous contents. -/
def fill_cache (PX PY : Nat) (bm cache : List Nat) (scanRow : Nat) : List Nat :=
  let rowsize := unified_width_bytes PX PY
  let row := fun k => (bm.drop ((scanRow + k) * rowsize)).take rowsize
  let pre := interleave4 (cache.length / 4) (row 0) (row 4) (row 8) (row 12)
  pre ++ cache.drop pre.length

/-- The cache contents produced by `fill_cache` on a device state. -/
def newCache (PX PY : Nat) (d : Dev) : List Nat :=
  fill_cache PX PY d.bitmap d.cache d.scanRow

/-- One scan pass of `flush`: `fill_cache`, transmit the whole cache over
SPI, then `next_row`. -/
def flushPass (PX PY : Nat) (env : Nat → Bool) (st : St) : St × Option Error :=
  let st := { st with dev := { st.dev with cache := newCache PX PY st.dev } }
  andThen (call env (Ev.spiWrite st.dev.cache) Error.Spi st) fun st =>
  next_row env st

/-- `P10Led::flush` (identical sequencing in the blocking and the async
variants): four scan passes back to back. -/
def flush (PX PY : Nat) (env : Nat → Bool) (st : St) : St × Option Error :=
  andThen (flushPass PX PY env st) fun st =>
  andThen (flushPass PX PY env st) fun st =>
  andThen (flushPass PX PY env st) fun st =>
  flushPass PX PY env st

/-- The events attempted by a `next_row` call that runs to completion,
in order. -/
def nrTrace (d : Dev) : List Ev :=
  [Ev.pwmOff, Ev.latchHigh, Ev.latchLow,
   Ev.pinA (Nat.land d.scanRow 1 != 0), Ev.pinB (Nat.land d.scanRow 2 != 0),
   Ev.pwmSet d.brightness]

/-- The events attempted by one full scan pass, in order. -/
def passTrace (PX PY : Nat) (d : Dev) : List Ev :=
  Ev.spiWrite (newCache PX PY d) :: nrTrace d

/-- The scan-row advance `scan_row = (scan_row + 1) % 4`. -/
def advance (d : Dev) : Dev := { d with scanRow := (d.scanRow + 1) % 4 }

/-- The device state after one completed scan pass. -/
def devAfterPass (PX PY : Nat) (d : Dev) : Dev :=
  advance { d with cache := newCache PX PY d }

/-- The error reported when the j-th collaborator call of a scan pass is the
first to fail: call 0 is the SPI transfer, calls 1 and 6 are PWM calls, and
calls 2–5 are digital-line calls. -/
def errOf : Nat → Error
  | 0 => Error.Spi
  | 1 => Error.Pwm
  | 6 => Error.Pwm
  | _ => Error.Digital

/-- Latch-pulse and row-address events. -/
def isLatchOrAddr : Ev → Bool
  | Ev.latchHigh => true
  | Ev.latchLow => true
  | Ev.pinA _ => true
  | Ev.pinB _ => true
  | _ => false

/-- The blanking discipline over an event trace: every latch or row-address
event is strictly preceded by a PWM blank, and every PWM restore carries the
configured brightness and comes strictly after every latch and row-address
event. -/
def blankingDiscipline (br : Nat) (tr : List Ev) : Prop :=
  (∀ j ej, tr.get? j = some ej → isLatchOrAddr ej = true →
     ∃ i, i < j ∧ tr.get? i = some Ev.pwmOff) ∧
  (∀ j lvl, tr.get? j = some (Ev.pwmSet lvl) →
     lvl = br ∧ ∀ i ei, tr.get? i = some ei → isLatchOrAddr ei = true → i < j)

/-- An environment where every collaborator call succeeds. -/
def envAll : Nat → Bool := fun _ => true

/-- An environment where exactly the n-th collaborator call fails. -/
def envFailAt (n : Nat) : Nat → Bool := fun i => i != n

/-- A 1×1-tile device state with an all-lit framebuffer (every byte 0,
inverted convention) and the cache still holding its `0xff` initialization
values. -/
def devAllLit : Dev :=
  { brightness := 100
    bitmap := List.replicate 256 0
    cache := List.replicate 64 255
    scanRow := 0 }

/-- C1: the claim says pixel `(0,0)` selects byte 0, bit 7 (mask `0x80`) and
that the selected bit is `7 - x % 8` MSB-first. The code computes the mask
as `1 << (8 - x % 8)`: at `x % 8 = 0` the shift amount is 8, an overflowing
`u8` shift (`none`, a panic under checked semantics) instead of bit 7, and
at `x = 1` the mask is already `0x80` (bit 7), one position above the
claimed convention. The byte offsets (0 for `(0,0)`, 3 for `(31,0)`) do
match the claim. -/
theorem c1_bitmask_divergence :
    pixel_to_bitmask 0 = none ∧ pixel_to_bitmask 8 = none ∧
    pixel_to_bitmask 1 = some 128 ∧
    pixel_to_bitmap_index 1 1 0 0 = 0 ∧ pixel_to_bitmap_index 1 1 31 0 = 3 := by
  decide

/-- C2: drawing the in-bounds pixel `(0,0)` panics (overflowing bitmask
shift, since `0 % 8 = 0`), and on a 4×4 tile grid the in-bounds pixel
`(127,63)` indexes byte 1023 of the fixed 256-byte bitmap, a panic for any
build profile — `draw_iter` is not total. -/
theorem c2_draw_iter_panics :
    draw_iter 1 1 (List.replicate 256 255) [((0 : Int), (0 : Int), true)] = none ∧
    setPixel 4 4 (List.replicate 256 255) 127 63 true = none := by
  decide

/-- C3: on a 1×1 tile with an all-lit framebuffer (all bytes 0), the first
scan pass transmits the whole fixed 64-byte cache, of which only
`4 * unified_width_bytes = 16` bytes were rebuilt from the framebuffer; the
remaining 48 bytes are the `0xff` initialization values, contradicting both
the claimed `unified_row_stride`-sized transmission and the claimed full
overwrite. -/
theorem c3_fixed_cache_bug :
    (flushPass 1 1 envAll ⟨devAllLit, 0, []⟩).1.trace.head?
      = some (Ev.spiWrite (List.replicate 16 0 ++ List.replicate 48 255)) ∧
    (List.replicate 16 (0 : Nat) ++ List.replicate 48 255).length = 64 ∧
    unified_width_bytes 1 1 = 4 := by
  decide

/-- C4: on a 4×4 tile grid the valid coordinate `(127,63)`
(`127 < WIDTH = 128`, `63 < HEIGHT = 64`) maps to byte offset 1023, far
outside the fixed 256-byte bitmap the constructor allocates, so the
addressing functions do not stay inside the array bounds for every tile
geometry. -/
theorem c4_index_out_of_bounds :
    127 < WIDTH 4 ∧ 63 < HEIGHT 4 ∧
    pixel_to_bitmap_index 4 4 127 63 = 1023 ∧
    (new 100).bitmap.length = 256 ∧
    ¬ pixel_to_bitmap_index 4 4 127 63 < (new 100).bitmap.length := by
  decide

/-- C8 counterexample: on an all-lit framebuffer (all bytes 0), setting
pixel `(1,0)` on and then off does not restore the affected byte: the
off-write sets the mask bit, leaving byte 0 equal to `0x80` instead of 0.
The round-trip claim fails for pixels that were originally lit. -/
theorem c8_roundtrip_counterexample :
    ((setPixel 1 1 (List.replicate 256 0) 1 0 true).bind
        (fun b => setPixel 1 1 b 1 0 false)) ≠ some (List.replicate 256 0) := by
  decide

/-- C9: a pixel whose coordinate lies outside `[0, WIDTH) × [0, HEIGHT)` is
dropped by the bounding-box filter of `draw_iter`, leaving the framebuffer
bitmap unchanged. -/
theorem c9_out_of_bounds_clip (PX PY : Nat) (bm : List Nat) (x y : Int) (col : Bool)
    (h : x < 0 ∨ (WIDTH PX : Int) ≤ x ∨ y < 0 ∨ (HEIGHT PY : Int) ≤ y) :
    setPixel PX PY bm x y col = some bm ∧
    draw_iter PX PY bm [(x, y, col)] = some bm := by
  have hcond : ¬ (0 ≤ x ∧ x < (WIDTH PX : Int) ∧ 0 ≤ y ∧ y < (HEIGHT PY : Int)) := by
    omega
  refine ⟨by simp [setPixel, hcond], ?_⟩
  simp [draw_iter, setPixel, hcond]

/-- C9 witness: drawing at `(WIDTH, 0) = (32, 0)` on a 1×1 tile is a no-op. -/
theorem c9_out_of_bounds_clip_witness :
    setPixel 1 1 (List.replicate 256 255) 32 0 true = some (List.replicate 256 255) ∧
    draw_iter 1 1 (List.replicate 256 255) [((32 : Int), (0 : Int), true)]
      = some (List.replicate 256 255) :=
  c9_out_of_bounds_clip 1 1 (List.replicate 256 255) 32 0 true (by decide)

theorem andThen_pres {α : Type} (g : Dev → α) (r : St × Option Error)
    (f : St → St × Option Error) (hf : ∀ s, g (f s).1.dev = g s.dev) :
    g (andThen r f).1.dev = g r.1.dev := by
  rcases r with ⟨s, o⟩
  cases o <;> simp [andThen, hf]

theorem next_row_pres {α : Type} (g : Dev → α) (env : Nat → Bool)
    (hg : ∀ d r, g { d with scanRow := r } = g d) (st : St) :
    g (next_row env st).1.dev = g st.dev := by
  unfold next_row
  refine (andThen_pres g _ _ fun s1 => ?_).trans rfl
  refine (andThen_pres g _ _ fun s2 => ?_).trans rfl
  refine (andThen_pres g _ _ fun s3 => ?_).trans rfl
  refine (andThen_pres g _ _ fun s4 => ?_).trans rfl
  refine (andThen_pres g _ _ fun s5 => ?_).trans rfl
  exact hg s5.dev _

theorem flushPass_pres {α : Type} (g : Dev → α) (PX PY : Nat) (env : Nat → Bool)
    (hg : ∀ d r, g { d with scanRow := r } = g d)
    (hgc : ∀ d c, g { d with cache := c } = g d) (st : St) :
    g (flushPass PX PY env st).1.dev = g st.dev := by
  unfold flushPass
  exact (andThen_pres g _ _ fun s1 => next_row_pres g env hg s1).trans (hgc st.dev _)

theorem flush_pres {α : Type} (g : Dev → α) (PX PY : Nat) (env : Nat → Bool)
    (hg : ∀ d r, g { d with scanRow := r } = g d)
    (hgc : ∀ d c, g { d with cache := c } = g d) (st : St) :
    g (flush PX PY env st).1.dev = g st.dev := by
  unfold flush
  refine (andThen_pres g _ _ fun s1 => ?_).trans (flushPass_pres g PX PY env hg hgc st)
  refine (andThen_pres g _ _ fun s2 => ?_).trans (flushPass_pres g PX PY env hg hgc s1)
  exact (andThen_pres g _ _ fun s3 => flushPass_pres g PX PY env hg hgc s3).trans
    (flushPass_pres g PX PY env hg hgc s2)

/-- C10: for every environment and device state, `flush` (whether it
completes or aborts on a collaborator failure) leaves the framebuffer
bitmap and the stored brightness level unchanged; of the device fields only
the scan cache and the scan-row phase are mutated, so repeated flushes
retransmit the same frame content. -/
theorem c10_flush_preserves_frame (PX PY : Nat) (env : Nat → Bool) (st : St) :
    (flush PX PY env st).1.dev.bitmap = st.dev.bitmap ∧
    (flush PX PY env st).1.dev.brightness = st.dev.brightness :=
  ⟨flush_pres (fun d => d.bitmap) PX PY env (fun _ _ => rfl) (fun _ _ => rfl) st,
   flush_pres (fun d => d.brightness) PX PY env (fun _ _ => rfl) (fun _ _ => rfl) st⟩

theorem next_row_ok (env : Nat → Bool) (st : St)
    (h : ∀ i, i < 6 → env (st.calls + i) = true) :
    next_row env st =
      ({ dev := advance st.dev, calls := st.calls + 6,
         trace := st.trace ++ nrTrace st.dev }, none) := by
  have h0 : env st.calls = true := by simpa using h 0 (by omega)
  have h1 : env (st.calls + 1) = true := h 1 (by omega)
  have h2 : env (st.calls + 2) = true := h 2 (by omega)
  have h3 : env (st.calls + 3) = true := h 3 (by omega)
  have h4 : env (st.calls + 4) = true := h 4 (by omega)
  have h5 : env (st.calls + 5) = true := h 5 (by omega)
  simp [next_row, call, andThen, h0, h1, h2, h3, h4, h5, advance, nrTrace]

theorem next_row_fail (env : Nat → Bool) (st : St) (j : Nat) (hj : j < 6)
    (h : ∀ i, i < j → env (st.calls + i) = true)
    (hf : env (st.calls + j) = false) :
    next_row env st =
      ({ dev := if j = 5 then advance st.dev else st.dev,
         calls := st.calls + j + 1,
         trace := st.trace ++ (nrTrace st.dev).take (j + 1) }, some (errOf (j + 1))) := by
  have h0 : j = 0 → env st.calls = false := fun hh => by simpa [hh] using hf
  interval_cases j
  · have hf0 : env st.calls = false := by simpa using hf
    simp [next_row, call, andThen, hf0, nrTrace, errOf]
  · have e0 : env st.calls = true := by simpa using h 0 (by omega)
    simp [next_row, call, andThen, e0, hf, nrTrace, errOf]
  · have e0 : env st.calls = true := by simpa using h 0 (by omega)
    have e1 : env (st.calls + 1) = true := h 1 (by omega)
    simp [next_row, call, andThen, e0, e1, hf, nrTrace, errOf]
  · have e0 : env st.calls = true := by simpa using h 0 (by omega)
    have e1 : env (st.calls + 1) = true := h 1 (by omega)
    have e2 : env (st.calls + 2) = true := h 2 (by omega)
    simp [next_row, call, andThen, e0, e1, e2, hf, nrTrace, errOf]
  · have e0 : env st.calls = true := by simpa using h 0 (by omega)
    have e1 : env (st.calls + 1) = true := h 1 (by omega)
    have e2 : env (st.calls + 2) = true := h 2 (by omega)
    have e3 : env (st.calls + 3) = true := h 3 (by omega)
    simp [next_row, call, andThen, e0, e1, e2, e3, hf, nrTrace, errOf]
  · have e0 : env st.calls = true := by simpa using h 0 (by omega)
    have e1 : env (st.calls + 1) = true := h 1 (by omega)
    have e2 : env (st.calls + 2) = true := h 2 (by omega)
    have e3 : env (st.calls + 3) = true := h 3 (by omega)
    have e4 : env (st.calls + 4) = true := h 4 (by omega)
    simp [next_row, call, andThen, e0, e1, e2, e3, e4, hf, nrTrace, errOf, advance]

theorem flushPass_ok (PX PY : Nat) (env : Nat → Bool) (st : St)
    (h : ∀ i, i < 7 → env (st.calls + i) = true) :
    flushPass PX PY env st =
      ({ dev := devAfterPass PX PY st.dev, calls := st.calls + 7,
         trace := st.trace ++ passTrace PX PY st.dev }, none) := by
  have h0 : env st.calls = true := by simpa using h 0 (by omega)
  have hnr : ∀ i, i < 6 →
      env (({ st with
        dev := { st.dev with cache := newCache PX PY st.dev },
        calls := st.calls + 1,
        trace := st.trace ++ [Ev.spiWrite (newCache PX PY st.dev)] } : St).calls + i)
        = true := by
    intro i hi
    simpa [Nat.add_assoc] using h (1 + i) (by omega)
  unfold flushPass
  simp only [call, andThen, h0, if_true]
  rw [next_row_ok env _ hnr]
  simp [devAfterPass, advance, passTrace, nrTrace, newCache, List.append_assoc]

theorem flushPass_fail (PX PY : Nat) (env : Nat → Bool) (st : St) (j : Nat) (hj : j < 7)
    (h : ∀ i, i < j → env (st.calls + i) = true)
    (hf : env (st.calls + j) = false) :
    flushPass PX PY env st =
      ({ dev := if j = 6 then devAfterPass PX PY st.dev
                else { st.dev with cache := newCache PX PY st.dev },
         calls := st.calls + j + 1,
         trace := st.trace ++ (passTrace PX PY st.dev).take (j + 1) },
       some (errOf j)) := by
  rcases Nat.eq_zero_or_pos j with hj0 | hjpos
  · subst hj0
    have hf0 : env st.calls = false := by simpa using hf
    unfold flushPass
    simp [call, andThen, hf0, passTrace, errOf]
  · obtain ⟨k, rfl⟩ : ∃ k, j = k + 1 := ⟨j - 1, by omega⟩
    have h0 : env st.calls = true := by simpa using h 0 (by omega)
    have hnr : ∀ i, i < k →
        env (({ st with
          dev := { st.dev with cache := newCache PX PY st.dev },
          calls := st.calls + 1,
          trace := st.trace ++ [Ev.spiWrite (newCache PX PY st.dev)] } : St).calls + i)
          = true := by
      intro i hi
      simpa [Nat.add_assoc] using h (1 + i) (by omega)
    have hnf : env (({ st with
          dev := { st.dev with cache := newCache PX PY st.dev },
          calls := st.calls + 1,
          trace := st.trace ++ [Ev.spiWrite (newCache PX PY st.dev)] } : St).calls + k)
          = false := by
      have hq : st.calls + 1 + k = st.calls + (k + 1) := by omega
      simpa [hq] using hf
    unfold flushPass
    simp only [call, andThen, h0, if_true]
    rw [next_row_fail env _ k (by omega) hnr hnf]
    by_cases hk : k = 5
    · subst hk
      simp [devAfterPass, advance, passTrace, nrTrace, newCache, List.append_assoc, errOf]
    · have hk1 : ¬ (k + 1 = 6) := by omega
      simp [hk, hk1, passTrace, nrTrace, newCache, List.append_assoc]
      omega

theorem devAfterPass_scanRow (PX PY : Nat) (d : Dev) :
    (devAfterPass PX PY d).scanRow = (d.scanRow + 1) % 4 := rfl

/-- C5: if the first collaborator failure during `flush` is call `j` of scan
pass `p` (7 collaborator calls per pass: SPI transmit, PWM blank, latch
high, latch low, line A, line B, PWM restore), then `flush` returns the
error of that collaborator (`errOf j`), no further collaborator call is
attempted (the trace holds exactly the `7 * p + j + 1` calls made, so
nothing is retried), and the scan-row phase has advanced exactly once per
completed pass — in particular, after a bus failure (`j = 0`) on pass
`p + 1`, it advanced exactly `p` times, once per pass completed before the
failure. -/
theorem c5_failure_aborts (PX PY : Nat) (env : Nat → Bool) (st : St) (p j : Nat)
    (hp : p < 4) (hj : j < 7)
    (hc : st.calls = 0) (htr : st.trace = []) (hs : st.dev.scanRow < 4)
    (hsucc : ∀ i, i < 7 * p + j → env i = true)
    (hfail : env (7 * p + j) = false) :
    (flush PX PY env st).2 = some (errOf j) ∧
    (flush PX PY env st).1.trace.length = 7 * p + j + 1 ∧
    (flush PX PY env st).1.dev.scanRow
      = (st.dev.scanRow + p + (if j = 6 then 1 else 0)) % 4 := by
  obtain ⟨d0, calls0, trace0⟩ := st
  simp only at hc htr hs ⊢
  subst hc; subst htr
  interval_cases p
  · unfold flush
    rw [flushPass_fail PX PY env ⟨d0, 0, []⟩ j hj
      (by intro i hi; simpa using hsucc i (by omega))
      (by simpa using hfail)]
    simp only [andThen]
    refine ⟨by simp, ?_, ?_⟩
    · simp [List.length_take, passTrace, nrTrace]
      omega
    · by_cases h6 : j = 6 <;>
        simp only [h6, devAfterPass_scanRow, reduceIte] <;>
        omega
  · have E1 : flushPass PX PY env ⟨d0, 0, []⟩ =
        (⟨devAfterPass PX PY d0, 7, passTrace PX PY d0⟩, none) := by
      rw [flushPass_ok PX PY env ⟨d0, 0, []⟩
        (by intro i hi; simpa using hsucc i (by omega))]
      rfl
    unfold flush
    rw [E1]
    simp only [andThen]
    rw [flushPass_fail PX PY env ⟨devAfterPass PX PY d0, 7, passTrace PX PY d0⟩ j hj
      (by intro i hi; simpa using hsucc (7 + i) (by omega))
      (by simpa using hfail)]
    simp only [andThen]
    refine ⟨by simp, ?_, ?_⟩
    · simp [List.length_take, List.length_append, passTrace, nrTrace]
      omega
    · by_cases h6 : j = 6 <;>
        simp only [h6, devAfterPass_scanRow, reduceIte] <;>
        omega
  · have E1 : flushPass PX PY env ⟨d0, 0, []⟩ =
        (⟨devAfterPass PX PY d0, 7, passTrace PX PY d0⟩, none) := by
      rw [flushPass_ok PX PY env ⟨d0, 0, []⟩
        (by intro i hi; simpa using hsucc i (by omega))]
      rfl
    have E2 : flushPass PX PY env ⟨devAfterPass PX PY d0, 7, passTrace PX PY d0⟩ =
        (⟨devAfterPass PX PY (devAfterPass PX PY d0), 14,
          passTrace PX PY d0 ++ passTrace PX PY (devAfterPass PX PY d0)⟩, none) := by
      rw [flushPass_ok PX PY env _
        (by intro i hi; simpa using hsucc (7 + i) (by omega))]
    unfold flush
    rw [E1]
    simp only [andThen]
    rw [E2]
    simp only [andThen]
    rw [flushPass_fail PX PY env
      ⟨devAfterPass PX PY (devAfterPass PX PY d0), 14,
        passTrace PX PY d0 ++ passTrace PX PY (devAfterPass PX PY d0)⟩ j hj
      (by intro i hi; simpa using hsucc (14 + i) (by omega))
      (by simpa using hfail)]
    simp only [andThen]
    refine ⟨by simp, ?_, ?_⟩
    · simp [List.length_take, List.length_append, passTrace, nrTrace]
      omega
    · by_cases h6 : j = 6 <;>
        simp only [h6, devAfterPass_scanRow, reduceIte] <;>
        omega
  · have E1 : flushPass PX PY env ⟨d0, 0, []⟩ =
        (⟨devAfterPass PX PY d0, 7, passTrace PX PY d0⟩, none) := by
      rw [flushPass_ok PX PY env ⟨d0, 0, []⟩
        (by intro i hi; simpa using hsucc i (by omega))]
      rfl
    have E2 : flushPass PX PY env ⟨devAfterPass PX PY d0, 7, passTrace PX PY d0⟩ =
        (⟨devAfterPass PX PY (devAfterPass PX PY d0), 14,
          passTrace PX PY d0 ++ passTrace PX PY (devAfterPass PX PY d0)⟩, none) := by
      rw [flushPass_ok PX PY env _
        (by intro i hi; simpa using hsucc (7 + i) (by omega))]
    have E3 : flushPass PX PY env
        ⟨devAfterPass PX PY (devAfterPass PX PY d0), 14,
          passTrace PX PY d0 ++ passTrace PX PY (devAfterPass PX PY d0)⟩ =
        (⟨devAfterPass PX PY (devAfterPass PX PY (devAfterPass PX PY d0)), 21,
          (passTrace PX PY d0 ++ passTrace PX PY (devAfterPass PX PY d0))
            ++ passTrace PX PY (devAfterPass PX PY (devAfterPass PX PY d0))⟩, none) := by
      rw [flushPass_ok PX PY env _
        (by intro i hi; simpa using hsucc (14 + i) (by omega))]
    unfold flush
    rw [E1]
    simp only [andThen]
    rw [E2]
    simp only [andThen]
    rw [E3]
    simp only [andThen]
    rw [flushPass_fail PX PY env
      ⟨devAfterPass PX PY (devAfterPass PX PY (devAfterPass PX PY d0)), 21,
        (passTrace PX PY d0 ++ passTrace PX PY (devAfterPass PX PY d0))
          ++ passTrace PX PY (devAfterPass PX PY (devAfterPass PX PY d0))⟩ j hj
      (by intro i hi; simpa using hsucc (21 + i) (by omega))
      (by simpa using hfail)]
    simp only [andThen]
    refine ⟨by simp, ?_, ?_⟩
    · simp [List.length_take, List.length_append, passTrace, nrTrace]
      omega
    · by_cases h6 : j = 6 <;>
        simp only [h6, devAfterPass_scanRow, reduceIte] <;>
        omega

theorem next_row_trace_shape (env : Nat → Bool) (st : St) :
    ∃ n, n ≤ 6 ∧ (next_row env st).1.trace = st.trace ++ (nrTrace st.dev).take n := by
  cases h0 : env st.calls with
  | false =>
    refine ⟨1, by omega, ?_⟩
    rw [next_row_fail env st 0 (by omega) (by intro i hi; omega) (by simpa using h0)]
  | true =>
    cases h1 : env (st.calls + 1) with
    | false =>
      refine ⟨2, by omega, ?_⟩
      rw [next_row_fail env st 1 (by omega)
        (by intro i hi; interval_cases i <;> simp_all) (by simpa using h1)]
    | true =>
      cases h2 : env (st.calls + 2) with
      | false =>
        refine ⟨3, by omega, ?_⟩
        rw [next_row_fail env st 2 (by omega)
          (by intro i hi; interval_cases i <;> simp_all) (by simpa using h2)]
      | true =>
        cases h3 : env (st.calls + 3) with
        | false =>
          refine ⟨4, by omega, ?_⟩
          rw [next_row_fail env st 3 (by omega)
            (by intro i hi; interval_cases i <;> simp_all) (by simpa using h3)]
        | true =>
          cases h4 : env (st.calls + 4) with
          | false =>
            refine ⟨5, by omega, ?_⟩
            rw [next_row_fail env st 4 (by omega)
              (by intro i hi; interval_cases i <;> simp_all) (by simpa using h4)]
          | true =>
            cases h5 : env (st.calls + 5) with
            | false =>
              refine ⟨6, by omega, ?_⟩
              rw [next_row_fail env st 5 (by omega)
                (by intro i hi; interval_cases i <;> simp_all) (by simpa using h5)]
            | true =>
              refine ⟨6, by omega, ?_⟩
              rw [next_row_ok env st
                (by intro i hi; interval_cases i <;> simp_all)]
              simp [nrTrace, List.take]

theorem nrTrace_take_discipline (d : Dev) (n : Nat) :
    blankingDiscipline d.brightness ((nrTrace d).take n) := by
  constructor
  · intro j ej hj hl
    obtain ⟨hlt, _⟩ := List.get?_eq_some.mp hj
    rw [List.length_take] at hlt
    have hlen : (nrTrace d).length = 6 := rfl
    have hjn : j < n := by omega
    have hj6 : j < 6 := by omega
    rw [List.get?_take hjn] at hj
    interval_cases j
    · simp [nrTrace] at hj
      simp [← hj, isLatchOrAddr] at hl
    · exact ⟨0, by omega, by rw [List.get?_take (by omega : 0 < n)]; simp [nrTrace]⟩
    · exact ⟨0, by omega, by rw [List.get?_take (by omega : 0 < n)]; simp [nrTrace]⟩
    · exact ⟨0, by omega, by rw [List.get?_take (by omega : 0 < n)]; simp [nrTrace]⟩
    · exact ⟨0, by omega, by rw [List.get?_take (by omega : 0 < n)]; simp [nrTrace]⟩
    · simp [nrTrace] at hj
      simp [← hj, isLatchOrAddr] at hl
  · intro j lvl hj
    obtain ⟨hlt, _⟩ := List.get?_eq_some.mp hj
    rw [List.length_take] at hlt
    have hlen : (nrTrace d).length = 6 := rfl
    have hjn : j < n := by omega
    have hj6 : j < 6 := by omega
    rw [List.get?_take hjn] at hj
    interval_cases j
    · simp [nrTrace] at hj
    · simp [nrTrace] at hj
    · simp [nrTrace] at hj
    · simp [nrTrace] at hj
    · simp [nrTrace] at hj
    · simp [nrTrace] at hj
      refine ⟨hj.symm, ?_⟩
      intro i ei hi hli
      obtain ⟨hilt, _⟩ := List.get?_eq_some.mp hi
      rw [List.length_take] at hilt
      have hi6 : i < 6 := by omega
      have hin : i < n := by omega
      rw [List.get?_take hin] at hi
      interval_cases i
      · omega
      · omega
      · omega
      · omega
      · omega
      · simp [nrTrace] at hi
        simp [← hi, isLatchOrAddr] at hli

/-- C6: in every scan pass (`next_row`), under every environment, the
attempted-call trace blanks the PWM output strictly before every latch
edge and every row-address-line change, and any PWM restore carries the
configured brightness and occurs strictly after all of them. -/
theorem c6_blank_brackets_latch (env : Nat → Bool) (d : Dev) (c : Nat) :
    blankingDiscipline d.brightness ((next_row env ⟨d, c, []⟩).1.trace) := by
  obtain ⟨n, hn, htr⟩ := next_row_trace_shape env ⟨d, c, []⟩
  rw [htr]
  simpa using nrTrace_take_discipline d n

theorem interleave4_get (i : Nat) :
    ∀ (n : Nat) (as bs cs ds : List Nat),
      i < n → i < as.length → i < bs.length → i < cs.length → i < ds.length →
      (interleave4 n as bs cs ds).get? (4 * i) = as.get? i ∧
      (interleave4 n as bs cs ds).get? (4 * i + 1) = bs.get? i ∧
      (interleave4 n as bs cs ds).get? (4 * i + 2) = cs.get? i ∧
      (interleave4 n as bs cs ds).get? (4 * i + 3) = ds.get? i := by
  induction i with
  | zero =>
    intro n as bs cs ds hn ha hb hc hd
    cases n with
    | zero => omega
    | succ n =>
      cases as with
      | nil => simp at ha
      | cons a as =>
        cases bs with
        | nil => simp at hb
        | cons b bs =>
          cases cs with
          | nil => simp at hc
          | cons c cs =>
            cases ds with
            | nil => simp at hd
            | cons d ds => simp [interleave4]
  | succ i ih =>
    intro n as bs cs ds hn ha hb hc hd
    cases n with
    | zero => omega
    | succ n =>
      cases as with
      | nil => simp at ha
      | cons a as =>
        cases bs with
        | nil => simp at hb
        | cons b bs =>
          cases cs with
          | nil => simp at hc
          | cons c cs =>
            cases ds with
            | nil => simp at hd
            | cons d ds =>
              obtain ⟨e1, e2, e3, e4⟩ := ih n as bs cs ds (by omega)
                (by simpa using ha) (by simpa using hb)
                (by simpa using hc) (by simpa using hd)
              refine ⟨?_, ?_, ?_, ?_⟩
              · rw [show 4 * (i + 1) = 4 * i + 1 + 1 + 1 + 1 from by omega]
                simpa [interleave4] using e1
              · rw [show 4 * (i + 1) + 1 = 4 * i + 1 + 1 + 1 + 1 + 1 from by omega]
                simpa [interleave4] using e2
              · rw [show 4 * (i + 1) + 2 = 4 * i + 2 + 1 + 1 + 1 + 1 from by omega]
                simpa [interleave4] using e3
              · rw [show 4 * (i + 1) + 3 = 4 * i + 3 + 1 + 1 + 1 + 1 from by omega]
                simpa [interleave4] using e4

theorem interleave4_length_ge (i : Nat) :
    ∀ (n : Nat) (as bs cs ds : List Nat),
      i < n → i < as.length → i < bs.length → i < cs.length → i < ds.length →
      4 * i + 4 ≤ (interleave4 n as bs cs ds).length := by
  induction i with
  | zero =>
    intro n as bs cs ds hn ha hb hc hd
    cases n with
    | zero => omega
    | succ n =>
      cases as with
      | nil => simp at ha
      | cons a as =>
        cases bs with
        | nil => simp at hb
        | cons b bs =>
          cases cs with
          | nil => simp at hc
          | cons c cs =>
            cases ds with
            | nil => simp at hd
            | cons d ds => simp [interleave4]
  | succ i ih =>
    intro n as bs cs ds hn ha hb hc hd
    cases n with
    | zero => omega
    | succ n =>
      cases as with
      | nil => simp at ha
      | cons a as =>
        cases bs with
        | nil => simp at hb
        | cons b bs =>
          cases cs with
          | nil => simp at hc
          | cons c cs =>
            cases ds with
            | nil => simp at hd
            | cons d ds =>
              have := ih n as bs cs ds (by omega)
                (by simpa using ha) (by simpa using hb)
                (by simpa using hc) (by simpa using hd)
              simp [interleave4]
              omega

theorem slice_get (bm : List Nat) (a len i : Nat) (hi : i < len) :
    ((bm.drop a).take len).get? i = bm.get? (a + i) := by
  rw [List.get?_take hi, List.get?_drop]

/-- C7: every 4-byte group `i` that `fill_cache` builds for scan phase `s`
consists of the framebuffer bytes at offset `i` within the unified rows
`s + 0`, `s + 4`, `s + 8`, `s + 12`, in that ascending scan-offset order. -/
theorem c7_cache_interleave (PX PY : Nat) (bm cache : List Nat) (s i : Nat)
    (hrow : i < unified_width_bytes PX PY)
    (hchunk : i < cache.length / 4)
    (hbm : (s + 12) * unified_width_bytes PX PY + unified_width_bytes PX PY ≤ bm.length) :
    (fill_cache PX PY bm cache s).get? (4 * i)
        = bm.get? ((s + 0) * unified_width_bytes PX PY + i) ∧
    (fill_cache PX PY bm cache s).get? (4 * i + 1)
        = bm.get? ((s + 4) * unified_width_bytes PX PY + i) ∧
    (fill_cache PX PY bm cache s).get? (4 * i + 2)
        = bm.get? ((s + 8) * unified_width_bytes PX PY + i) ∧
    (fill_cache PX PY bm cache s).get? (4 * i + 3)
        = bm.get? ((s + 12) * unified_width_bytes PX PY + i) := by
  have hlen : ∀ k, k ≤ 12 →
      ((bm.drop ((s + k) * unified_width_bytes PX PY)).take
        (unified_width_bytes PX PY)).length = unified_width_bytes PX PY := by
    intro k hk
    rw [List.length_take, List.length_drop]
    have hm : (s + k) * unified_width_bytes PX PY
        ≤ (s + 12) * unified_width_bytes PX PY :=
      Nat.mul_le_mul_right _ (by omega)
    omega
  have h0 := hlen 0 (by omega)
  have h4 := hlen 4 (by omega)
  have h8 := hlen 8 (by omega)
  have h12 := hlen 12 (by omega)
  obtain ⟨e1, e2, e3, e4⟩ :=
    interleave4_get i (cache.length / 4)
      ((bm.drop ((s + 0) * unified_width_bytes PX PY)).take (unified_width_bytes PX PY))
      ((bm.drop ((s + 4) * unified_width_bytes PX PY)).take (unified_width_bytes PX PY))
      ((bm.drop ((s + 8) * unified_width_bytes PX PY)).take (unified_width_bytes PX PY))
      ((bm.drop ((s + 12) * unified_width_bytes PX PY)).take (unified_width_bytes PX PY))
      hchunk (by rw [h0]; exact hrow) (by rw [h4]; exact hrow)
      (by rw [h8]; exact hrow) (by rw [h12]; exact hrow)
  have hpre := interleave4_length_ge i (cache.length / 4)
      ((bm.drop ((s + 0) * unified_width_bytes PX PY)).take (unified_width_bytes PX PY))
      ((bm.drop ((s + 4) * unified_width_bytes PX PY)).take (unified_width_bytes PX PY))
      ((bm.drop ((s + 8) * unified_width_bytes PX PY)).take (unified_width_bytes PX PY))
      ((bm.drop ((s + 12) * unified_width_bytes PX PY)).take (unified_width_bytes PX PY))
      hchunk (by rw [h0]; exact hrow) (by rw [h4]; exact hrow)
      (by rw [h8]; exact hrow) (by rw [h12]; exact hrow)
  unfold fill_cache
  simp only []
  refine ⟨?_, ?_, ?_, ?_⟩
  · rw [List.get?_append (by omega)]
    rw [e1, slice_get _ _ _ _ hrow]
  · rw [List.get?_append (by omega)]
    rw [e2, slice_get _ _ _ _ hrow]
  · rw [List.get?_append (by omega)]
    rw [e3, slice_get _ _ _ _ hrow]
  · rw [List.get?_append (by omega)]
    rw [e4, slice_get _ _ _ _ hrow]

/-- C5 witness: a bus failure injected on pass 2 of 4 (collaborator call 7)
on a fresh 1×1 device returns the SPI error after exactly 8 attempted calls
with the phase counter advanced once. -/
theorem c5_failure_aborts_witness :
    (flush 1 1 (envFailAt 7) ⟨new 100, 0, []⟩).2 = some (errOf 0) ∧
    (flush 1 1 (envFailAt 7) ⟨new 100, 0, []⟩).1.trace.length = 8 ∧
    (flush 1 1 (envFailAt 7) ⟨new 100, 0, []⟩).1.dev.scanRow = 1 := by
  have h := c5_failure_aborts 1 1 (envFailAt 7) ⟨new 100, 0, []⟩ 1 0
    (by decide) (by decide) rfl rfl (by decide) (by decide) (by decide)
  simpa [new] using h

/-- C7 witness: group 0 of the cache built for phase 0 on a 1×1 tile is the
framebuffer bytes at the row offsets 0, 16, 32, 48
(`(0 + k) * unified_width_bytes` for k = 0, 4, 8, 12). -/
theorem c7_cache_interleave_witness :
    (fill_cache 1 1 (List.range 256) (List.replicate 64 0) 0).get? (4 * 0)
        = (List.range 256).get? ((0 + 0) * unified_width_bytes 1 1 + 0) ∧
    (fill_cache 1 1 (List.range 256) (List.replicate 64 0) 0).get? (4 * 0 + 1)
        = (List.range 256).get? ((0 + 4) * unified_width_bytes 1 1 + 0) ∧
    (fill_cache 1 1 (List.range 256) (List.replicate 64 0) 0).get? (4 * 0 + 2)
        = (List.range 256).get? ((0 + 8) * unified_width_bytes 1 1 + 0) ∧
    (fill_cache 1 1 (List.range 256) (List.replicate 64 0) 0).get? (4 * 0 + 3)
        = (List.range 256).get? ((0 + 12) * unified_width_bytes 1 1 + 0) :=
  c7_cache_interleave 1 1 (List.range 256) (List.replicate 64 0) 0 0
    (by decide) (by decide) (by decide)

theorem testBit_byte_high (b i : Nat) (hb : b < 256) (hi : 8 ≤ i) :
    b.testBit i = false :=
  Nat.testBit_lt_two_pow (by
    calc b < 256 := hb
    _ = 2 ^ 8 := by norm_num
    _ ≤ 2 ^ i := Nat.pow_le_pow_right (by omega) hi)

theorem testBit_255 (i : Nat) : Nat.testBit 255 i = decide (i < 8) := by
  have h : (255 : Nat) = 2 ^ 8 - 1 := by norm_num
  rw [h, Nat.testBit_two_pow_sub_one]

theorem byte_set_clear (b k : Nat) (hk : k < 8) (hb : b < 256)
    (hbit : b.testBit k = true) :
    (b &&& (255 ^^^ 2 ^ k)) ||| 2 ^ k = b := by
  apply Nat.eq_of_testBit_eq
  intro i
  rw [Nat.testBit_lor, Nat.testBit_land, Nat.testBit_xor, testBit_255,
    Nat.testBit_two_pow]
  by_cases hik : k = i
  · subst hik
    simp [hbit, hk]
  · by_cases hi8 : i < 8
    · simp [hik, hi8]
    · simp [hik, hi8, testBit_byte_high b i hb (by omega)]

theorem byte_clear_noop (b k : Nat) (hk : k < 8) (hb : b < 256)
    (hbit : b.testBit k = false) :
    b &&& (255 ^^^ 2 ^ k) = b := by
  apply Nat.eq_of_testBit_eq
  intro i
  rw [Nat.testBit_land, Nat.testBit_xor, testBit_255, Nat.testBit_two_pow]
  by_cases hik : k = i
  · subst hik
    simp [hbit]
  · by_cases hi8 : i < 8
    · simp [hik, hi8]
    · simp [hik, hi8, testBit_byte_high b i hb (by omega)]

theorem byte_set_noop (b k : Nat) (hbit : b.testBit k = true) :
    b ||| 2 ^ k = b := by
  apply Nat.eq_of_testBit_eq
  intro i
  rw [Nat.testBit_lor, Nat.testBit_two_pow]
  by_cases hik : k = i
  · subst hik
    simp [hbit]
  · simp [hik]

theorem set_get_self : ∀ (l : List Nat) (i : Nat) (h : i < l.length),
    l.set i (l.get ⟨i, h⟩) = l := by
  intro l
  induction l with
  | nil => intro i h; simp at h
  | cons a l ih =>
    intro i h
    cases i with
    | zero => simp
    | succ i => simpa using ih i (by simpa using h)

theorem pixel_to_bitmask_of_mod (x : Nat) (h : x % 8 ≠ 0) :
    pixel_to_bitmask x = some (2 ^ (8 - x % 8)) := by
  unfold pixel_to_bitmask
  rw [if_pos (by omega)]

theorem setPixel_in_bounds (PX PY : Nat) (bm : List Nat) (x y : Int) (col : Bool)
    (hin : 0 ≤ x ∧ x < (WIDTH PX : Int) ∧ 0 ≤ y ∧ y < (HEIGHT PY : Int))
    (hmod : x.toNat % 8 ≠ 0)
    (hidx : pixel_to_bitmap_index PX PY x.toNat y.toNat < bm.length) :
    setPixel PX PY bm x y col =
      some (bm.set (pixel_to_bitmap_index PX PY x.toNat y.toNat)
        (if col then
          bm.get ⟨pixel_to_bitmap_index PX PY x.toNat y.toNat, hidx⟩
            &&& (255 ^^^ 2 ^ (8 - x.toNat % 8))
         else
          bm.get ⟨pixel_to_bitmap_index PX PY x.toNat y.toNat, hidx⟩
            ||| 2 ^ (8 - x.toNat % 8))) := by
  unfold setPixel
  rw [if_pos hin, pixel_to_bitmask_of_mod _ hmod]
  simp only [dif_pos hidx]

theorem setPixel_on_eq (PX PY : Nat) (bm : List Nat) (x y : Int)
    (hin : 0 ≤ x ∧ x < (WIDTH PX : Int) ∧ 0 ≤ y ∧ y < (HEIGHT PY : Int))
    (hmod : x.toNat % 8 ≠ 0)
    (hidx : pixel_to_bitmap_index PX PY x.toNat y.toNat < bm.length) :
    setPixel PX PY bm x y true =
      some (bm.set (pixel_to_bitmap_index PX PY x.toNat y.toNat)
        (bm.get ⟨pixel_to_bitmap_index PX PY x.toNat y.toNat, hidx⟩
          &&& (255 ^^^ 2 ^ (8 - x.toNat % 8)))) := by
  rw [setPixel_in_bounds PX PY bm x y true hin hmod hidx]
  simp

theorem setPixel_off_eq (PX PY : Nat) (bm : List Nat) (x y : Int)
    (hin : 0 ≤ x ∧ x < (WIDTH PX : Int) ∧ 0 ≤ y ∧ y < (HEIGHT PY : Int))
    (hmod : x.toNat % 8 ≠ 0)
    (hidx : pixel_to_bitmap_index PX PY x.toNat y.toNat < bm.length) :
    setPixel PX PY bm x y false =
      some (bm.set (pixel_to_bitmap_index PX PY x.toNat y.toNat)
        (bm.get ⟨pixel_to_bitmap_index PX PY x.toNat y.toNat, hidx⟩
          ||| 2 ^ (8 - x.toNat % 8))) := by
  rw [setPixel_in_bounds PX PY bm x y false hin hmod hidx]
  simp

/-- C8 (amended): for an in-bounds pixel whose bitmask is defined
(`x % 8 ≠ 0`) and whose byte index lies inside the bitmap, with byte
values below 256: setting the pixel on and then off restores the affected
byte whenever the pixel was originally dark (mask bit set), and a set-pixel
whose target state already holds (on when lit, off when dark) leaves the
underlying byte unchanged. -/
theorem c8_set_pixel_algebra (PX PY : Nat) (bm : List Nat) (x y : Int)
    (hin : 0 ≤ x ∧ x < (WIDTH PX : Int) ∧ 0 ≤ y ∧ y < (HEIGHT PY : Int))
    (hmod : x.toNat % 8 ≠ 0)
    (hidx : pixel_to_bitmap_index PX PY x.toNat y.toNat < bm.length)
    (hbytes : ∀ b ∈ bm, b < 256) :
    ((bm.get ⟨pixel_to_bitmap_index PX PY x.toNat y.toNat, hidx⟩).testBit
        (8 - x.toNat % 8) = true →
      (setPixel PX PY bm x y true).bind (fun b1 => setPixel PX PY b1 x y false)
        = some bm) ∧
    ((bm.get ⟨pixel_to_bitmap_index PX PY x.toNat y.toNat, hidx⟩).testBit
        (8 - x.toNat % 8) = false →
      setPixel PX PY bm x y true = some bm) ∧
    ((bm.get ⟨pixel_to_bitmap_index PX PY x.toNat y.toNat, hidx⟩).testBit
        (8 - x.toNat % 8) = true →
      setPixel PX PY bm x y false = some bm) := by
  have hk8 : 8 - x.toNat % 8 < 8 := by omega
  have hb256 : bm.get ⟨pixel_to_bitmap_index PX PY x.toNat y.toNat, hidx⟩ < 256 :=
    hbytes _ (List.get_mem bm _ hidx)
  refine ⟨?_, ?_, ?_⟩
  · intro hdark
    rw [setPixel_on_eq PX PY bm x y hin hmod hidx]
    simp only [Option.some_bind]
    have hidx2 : pixel_to_bitmap_index PX PY x.toNat y.toNat <
        (bm.set (pixel_to_bitmap_index PX PY x.toNat y.toNat)
          (bm.get ⟨pixel_to_bitmap_index PX PY x.toNat y.toNat, hidx⟩
            &&& (255 ^^^ 2 ^ (8 - x.toNat % 8)))).length := by
      rw [List.length_set]; exact hidx
    rw [setPixel_off_eq PX PY _ x y hin hmod hidx2]
    rw [List.get_set_eq hidx2, List.set_set,
      byte_set_clear _ _ hk8 hb256 hdark, set_get_self bm _ hidx]
  · intro hlit
    rw [setPixel_on_eq PX PY bm x y hin hmod hidx]
    rw [byte_clear_noop _ _ hk8 hb256 hlit, set_get_self bm _ hidx]
  · intro hdark
    rw [setPixel_off_eq PX PY bm x y hin hmod hidx]
    rw [byte_set_noop _ _ hdark, set_get_self bm _ hidx]

/-- C8 witness: on the freshly constructed all-dark bitmap, pixel `(1,0)`
of a 1×1 tile round-trips on-then-off back to the original bytes, and
setting it off while already dark is a no-op. -/
theorem c8_set_pixel_algebra_witness :
    ((setPixel 1 1 (List.replicate 256 255) 1 0 true).bind
        (fun b1 => setPixel 1 1 b1 1 0 false)) = some (List.replicate 256 255) ∧
    setPixel 1 1 (List.replicate 256 255) 1 0 false = some (List.replicate 256 255) := by
  have h := c8_set_pixel_algebra 1 1 (List.replicate 256 255) 1 0
    (by decide) (by decide) (by decide)
    (by intro b hb; rw [List.eq_of_mem_replicate hb]; omega)
  exact ⟨h.1 (by decide), h.2.2 (by decide)⟩

end P10
